import Mathlib

/-!
Verification of the wasm-ql query host (src/src/wasm_ql.cpp) and the
wasmql database client library (src/libraries/eosiolib/wasmql/eosio/database.hpp).

The embedding models:
* the varuint32 wire codec used by abieos (push_varuint32 / bin_to_native),
* the host-call bridge (check_bounds, alloc, get_database_status,
  get_input_data, set_output_data, query_database),
* the fork-aware retry driver (did_fork, retry_loop, query),
* the increment_key family and the at.e.nra composite key,
* for_each_query_result / for_each_contract_row.

Machine integers are Nats with explicit mod 2^w where the C++ performs
fixed-width arithmetic.  Guest behaviour (the wasm module run by run_query)
is abstracted as a function from short name and input payload to the bytes
the guest leaves in the reply buffer; the time-varying view the open query
session has of block ids is a function of how many sub-requests have
completed, so a fork can appear at any sub-request boundary.
-/

namespace WasmQl

/-- Host-visible error kinds of wasm_ql.cpp (each is a thrown runtime_error). -/
inductive Err where
  | bad_memory
  | bad_callback_return
  | empty_database
  | too_many_forks
  | unknown_namespace
  | read_past_end
deriving DecidableEq

/-- fill_status as returned by query_session->get_fill_status(). Block ids are
    abstracted to Nats. -/
structure FillStatus where
  head : Nat
  head_id : Nat
  irreversible : Nat
  irreversible_id : Nat
  first : Nat
deriving DecidableEq

/-- Environment of one retry attempt: the snapshot acquired by
    create_query_session.  gbi t b is what get_block_id(b) returns on the open
    session after t sub-requests have completed (the session view can change
    under it, which is what did_fork detects); guest sn payload is the reply
    buffer content after run_query of module sn on the given input payload. -/
structure AttemptEnv where
  fill : FillStatus
  gbi : Nat → Nat → Option Nat
  guest : Nat → List Nat → List Nat

/-- Result of one attempt (one execution of the lambda passed to retry_loop):
    outcome is Except for thrown errors, with ok none meaning a fork was
    detected (the lambda returned false) and ok (some r) the staged reply.
    guestCalls and forkChecks count run_query invocations and did_fork calls. -/
structure AttemptRes where
  outcome : Except Err (Option (List Nat))
  guestCalls : Nat
  forkChecks : Nat

/-- Overall outcome of query(): the result plus how many query sessions were
    created (attempts) and total guest invocations / fork checks. -/
structure QueryOutcome where
  result : Except Err (List Nat)
  attempts : Nat
  guestCalls : Nat
  forkChecks : Nat

/-! ## Varuint32 codec (abieos push_varuint32 / bin_to_native of varuint32) -/

/-- push_varuint32: emit 7 bits per byte, low first, MSB = continuation.
    Structural on fuel; fuel 5 covers every uint32 (the only values the C++
    ever passes, since push_varuint32 takes a uint32_t). -/
def encodeVaruintAux : Nat → Nat → List Nat
  | 0, _ => []
  | fuel + 1, n => if n < 128 then [n] else (n % 128 + 128) :: encodeVaruintAux fuel (n / 128)

/-- Canonical varuint32 encoding of a uint32 value. -/
def encodeVaruint (n : Nat) : List Nat :=
  encodeVaruintAux 5 n

/-- read_varuint32 inner loop: accumulate (b and 0x7f) shifted into a uint32
    accumulator; the shift-limit check (shift < 35) bounds the loop to 5 bytes,
    modelled as fuel; running out of input throws. -/
def decodeVaruintAux : Nat → Nat → Nat → List Nat → Option (Nat × List Nat)
  | 0, _, _, _ => none
  | _ + 1, _, _, [] => none
  | fuel + 1, acc, shift, b :: rest =>
    let acc2 := (acc + b % 128 * 2 ^ shift) % 2 ^ 32
    if b < 128 then some (acc2, rest) else decodeVaruintAux fuel acc2 (shift + 7) rest

/-- bin_to_native of varuint32: decode a varuint32 from the front of a byte
    stream, returning the value and the remaining bytes. -/
def decodeVaruint (bs : List Nat) : Option (Nat × List Nat) :=
  decodeVaruintAux 5 0 0 bs

/-- Read exactly n bytes (abieos read_raw / input_buffer slice); throws if the
    stream is short. -/
def readBytes (n : Nat) (bs : List Nat) : Option (List Nat × List Nat) :=
  if n ≤ bs.length then some (bs.take n, bs.drop n) else none

/-- bin_to_native of input_buffer: varuint32 length, then that many bytes. -/
def readInputBuffer (bs : List Nat) : Option (List Nat × List Nat) :=
  match decodeVaruint bs with
  | none => none
  | some (len, rest) => readBytes len rest

/-- Little-endian bytes of a uint64 (how abieos serializes a name's value). -/
def u64ToLE (n : Nat) : List Nat :=
  [n % 256, n / 2 ^ 8 % 256, n / 2 ^ 16 % 256, n / 2 ^ 24 % 256,
   n / 2 ^ 32 % 256, n / 2 ^ 40 % 256, n / 2 ^ 48 % 256, n / 2 ^ 56 % 256]

/-- bin_to_native of name: read 8 little-endian bytes into a uint64. -/
def readU64LE : List Nat → Option (Nat × List Nat)
  | b0 :: b1 :: b2 :: b3 :: b4 :: b5 :: b6 :: b7 :: rest =>
    some (b0 + b1 * 2 ^ 8 + b2 * 2 ^ 16 + b3 * 2 ^ 24 + b4 * 2 ^ 32 + b5 * 2 ^ 40 +
          b6 * 2 ^ 48 + b7 * 2 ^ 56, rest)
  | _ => none

/-- Concatenation of a list of byte blobs. -/
def joinList : List (List Nat) → List Nat
  | [] => []
  | l :: ls => l ++ joinList ls

/-- The packed 64-bit value of the name literal used for the namespace check
    (abieos string_to_name of the 5-letter namespace, 5 bits per letter packed
    from bit 59 downward). -/
def localName : Nat :=
  17 * 2 ^ 59 + 20 * 2 ^ 54 + 8 * 2 ^ 49 + 6 * 2 ^ 44 + 17 * 2 ^ 39

/-! ## Host-call bridge (struct callbacks) -/

/-- callbacks::check_bounds: only begin > end is rejected; the containment
    check against linear memory is a "todo: check bounds" in the source and is
    not performed. -/
def check_bounds (b e : Nat) : Except Err Unit :=
  if b > e then .error .bad_memory else .ok ()

/-- What the specification demands of a guest pointer range: ordered and lying
    inside the guest's linear memory of the given size.  Modelled from the
    spec's words for comparison with check_bounds (which omits the second
    conjunct). -/
def range_in_memory (memSize b e : Nat) : Prop :=
  b ≤ e ∧ e ≤ memSize

instance (memSize b e : Nat) : Decidable (range_in_memory memSize b e) :=
  inferInstanceAs (Decidable (_ ∧ _))

/-- callbacks::set_output_data: bounds-check the pair, then copy the guest
    bytes [b, e) into the reply buffer (replacing its prior content).  Guest
    memory is a total byte function. -/
def set_output_data (mem : Nat → Nat) (b e : Nat) : Except Err (List Nat) :=
  match check_bounds b e with
  | .error err => .error err
  | .ok _ => .ok ((List.range (e - b)).map fun i => mem (b + i))

/-- A wasm value as returned by execute_func_table. -/
inductive WasmVal where
  | i32 (v : Nat)
  | i64 (v : Nat)
  | f32 (v : Nat)
  | f64 (v : Nat)
deriving DecidableEq

/-- callbacks::alloc: invoke the guest function at table index cb_alloc with
    arguments (cb_alloc_data, size); a missing or non-i32 result throws; the
    returned i32 is the guest offset of the allocated region, which is then
    passed through check_bounds. -/
def alloc (execTable : Nat → Nat → Nat → Option WasmVal)
    (cb_alloc_data cb_alloc size : Nat) : Except Err Nat :=
  match execTable cb_alloc cb_alloc_data size with
  | some (WasmVal.i32 off) =>
    match check_bounds off (off + size) with
    | .error err => .error err
    | .ok _ => .ok off
  | _ => .error .bad_callback_return

/-- memcpy of a payload into guest memory at offset off. -/
def writeBytes (mem : Nat → Nat) (off : Nat) (payload : List Nat) : Nat → Nat :=
  fun i => if off ≤ i ∧ i < off + payload.length then payload.getD (i - off) 0 else mem i

/-- callbacks::get_database_status: alloc a region of the status blob's size
    and copy the blob into it. -/
def cb_get_database_status (execTable : Nat → Nat → Nat → Option WasmVal)
    (mem : Nat → Nat) (database_status : List Nat)
    (cb_alloc_data cb_alloc : Nat) : Except Err (Nat → Nat) :=
  match alloc execTable cb_alloc_data cb_alloc database_status.length with
  | .error err => .error err
  | .ok off => .ok (writeBytes mem off database_status)

/-- callbacks::get_input_data: alloc a region for the remaining request bytes
    and copy them into it. -/
def cb_get_input_data (execTable : Nat → Nat → Nat → Option WasmVal)
    (mem : Nat → Nat) (request : List Nat)
    (cb_alloc_data cb_alloc : Nat) : Except Err (Nat → Nat) :=
  match alloc execTable cb_alloc_data cb_alloc request.length with
  | .error err => .error err
  | .ok off => .ok (writeBytes mem off request)

/-- callbacks::query_database: bounds-check the request range, read it from
    guest memory, run the session query (qdb) capped at head, then alloc and
    copy the result. -/
def cb_query_database (execTable : Nat → Nat → Nat → Option WasmVal)
    (mem : Nat → Nat) (qdb : List Nat → Nat → List Nat) (head : Nat)
    (req_begin req_end cb_alloc_data cb_alloc : Nat) : Except Err (Nat → Nat) :=
  match check_bounds req_begin req_end with
  | .error err => .error err
  | .ok _ =>
    let reqBytes := (List.range (req_end - req_begin)).map fun i => mem (req_begin + i)
    let result := qdb reqBytes head
    match alloc execTable cb_alloc_data cb_alloc result.length with
    | .error err => .error err
    | .ok off => .ok (writeBytes mem off result)

/-! ## Fork detection and the retry driver -/

/-- did_fork: query get_block_id at the captured head; fork iff the id is
    absent or differs from the captured head_id. -/
def did_fork (gbi : Nat → Option Nat) (fill : FillStatus) : Bool :=
  match gbi fill.head with
  | none => true
  | some id => decide (id ≠ fill.head_id)

/-- The sub-request loop of query()'s lambda: k sub-requests remain, bin is the
    unread part of the outer request, acc the staged reply so far, done the
    number of completed sub-requests.  Each iteration parses a length-prefixed
    sub-request, checks its namespace, runs the guest, then checks for a fork;
    a fork abandons the staged reply (outcome ok none), otherwise the reply is
    length-prefixed and appended. -/
def queryLoop (env : AttemptEnv) : Nat → List Nat → List Nat → Nat → AttemptRes
  | 0, _, acc, done => ⟨.ok (some acc), done, done⟩
  | k + 1, bin, acc, done =>
    match readInputBuffer bin with
    | none => ⟨.error .read_past_end, done, done⟩
    | some (sub, bin2) =>
      match readU64LE sub with
      | none => ⟨.error .read_past_end, done, done⟩
      | some (ns, sub2) =>
        if ns = localName then
          match readU64LE sub2 with
          | none => ⟨.error .read_past_end, done, done⟩
          | some (sn, payload) =>
            let reply := env.guest sn payload
            if did_fork (env.gbi done) env.fill then ⟨.ok none, done + 1, done + 1⟩
            else
              queryLoop env k bin2 (acc ++ encodeVaruint (reply.length % 2 ^ 32) ++ reply)
                (done + 1)
        else ⟨.error .unknown_namespace, done, done⟩

/-- One execution of the lambda query() passes to retry_loop: clear the staged
    reply, decode the outer sub-request count, re-emit it, then run the loop. -/
def runAttempt (env : AttemptEnv) (request : List Nat) : AttemptRes :=
  match decodeVaruint request with
  | none => ⟨.error .read_past_end, 0, 0⟩
  | some (n, bin) => queryLoop env n bin (encodeVaruint n) 0

/-- retry_loop: per attempt, create a fresh query session (envs k), fail with
    empty_database when the snapshot head is 0, run the body; a detected fork
    retries until ++num_tries reaches 4, after which too_many_forks is thrown.
    fuel is 4 - num_tries; k indexes attempts; g and c accumulate guest calls
    and fork checks. -/
def retry_go (envs : Nat → AttemptEnv) (request : List Nat) :
    Nat → Nat → Nat → Nat → QueryOutcome
  | k, 0, g, c => ⟨.error .too_many_forks, k, g, c⟩
  | k, fuel + 1, g, c =>
    let env := envs k
    if env.fill.head = 0 then ⟨.error .empty_database, k + 1, g, c⟩
    else
      let r := runAttempt env request
      match r.outcome with
      | .error err => ⟨.error err, k + 1, g + r.guestCalls, c + r.forkChecks⟩
      | .ok (some reply) => ⟨.ok reply, k + 1, g + r.guestCalls, c + r.forkChecks⟩
      | .ok none => retry_go envs request (k + 1) fuel (g + r.guestCalls) (c + r.forkChecks)

/-- query(): run the multi-sub-request lambda under retry_loop (4 attempts). -/
def query (envs : Nat → AttemptEnv) (request : List Nat) : QueryOutcome :=
  retry_go envs request 0 4 0 0

/-! ## Wire encoders for requests and replies -/

/-- One sub-request on the wire: varuint32 length, then namespace name,
    short name, payload. -/
def encodeSubRequest (sn : Nat) (payload : List Nat) : List Nat :=
  let body := u64ToLE localName ++ (u64ToLE sn ++ payload)
  encodeVaruint body.length ++ body

/-- The outer request: varuint32 count then the sub-requests. -/
def encodeRequest (subs : List (Nat × List Nat)) : List Nat :=
  encodeVaruint subs.length ++ joinList (subs.map fun s => encodeSubRequest s.1 s.2)

/-- The top-level reply (also the serialized form of vector of byte vectors):
    varuint32 count then length-prefixed blobs. -/
def encodeReply (replies : List (List Nat)) : List Nat :=
  encodeVaruint replies.length ++ joinList (replies.map fun r => encodeVaruint r.length ++ r)

/-! ## increment_key (database.hpp)

Each fixed-width overload is the same source text (return not-pre-increment of
key), so it is modelled once, parametrically in the width. -/

/-- increment_key for a w-bit unsigned scalar: wrap to the incremented value
    mod 2^w and report true exactly when the result wrapped to zero. -/
def inc_u (w k : Nat) : Nat × Bool :=
  let k2 := (k + 1) % 2 ^ w
  (k2, k2 == 0)

/-- increment_key overload for name: increments the packed 64-bit value. -/
def increment_key_name (k : Nat) : Nat × Bool :=
  inc_u 64 k

/-- checksum256 as two 128-bit limbs: d0 holds data()[0] (most significant),
    d1 holds data()[1] (least significant). -/
structure Checksum256 where
  d0 : Nat
  d1 : Nat
deriving DecidableEq

/-- increment_key overload for checksum256: increment data()[1] and, only when
    it wraps, increment data()[0]; report the wrap of data()[0]. -/
def increment_key_checksum (k : Checksum256) : Checksum256 × Bool :=
  let p1 := inc_u 128 k.d1
  if p1.2 then
    let p0 := inc_u 128 k.d0
    (⟨p0.1, p1.1⟩, p0.2)
  else (⟨k.d0, p1.1⟩, false)

/-- The key of query_action_trace_executed_range_name_receiver_account
    _block_trans_action (the at.e.nra query), fields in declared order. -/
structure ATKey where
  name : Nat
  receipt_receiver : Nat
  account : Nat
  block_index : Nat
  transaction_id : Checksum256
  action_index : Nat
deriving DecidableEq

/-- increment_key overload for the at.e.nra key: increment action_index and
    carry leftward through transaction_id, block_index, account,
    receipt_receiver, name, each only when the previous field wrapped
    (short-circuit of the chained conjunction in the source). -/
def increment_key_at (k : ATKey) : ATKey × Bool :=
  let pa := inc_u 32 k.action_index
  if pa.2 then
    let pt := increment_key_checksum k.transaction_id
    if pt.2 then
      let pb := inc_u 32 k.block_index
      if pb.2 then
        let pc := inc_u 64 k.account
        if pc.2 then
          let pr := inc_u 64 k.receipt_receiver
          if pr.2 then
            let pn := inc_u 64 k.name
            (⟨pn.1, pr.1, pc.1, pb.1, pt.1, pa.1⟩, pn.2)
          else (⟨k.name, pr.1, pc.1, pb.1, pt.1, pa.1⟩, false)
        else (⟨k.name, k.receipt_receiver, pc.1, pb.1, pt.1, pa.1⟩, false)
      else (⟨k.name, k.receipt_receiver, k.account, pb.1, pt.1, pa.1⟩, false)
    else (⟨k.name, k.receipt_receiver, k.account, k.block_index, pt.1, pa.1⟩, false)
  else (⟨k.name, k.receipt_receiver, k.account, k.block_index, k.transaction_id, pa.1⟩, false)

/-- Lexicographic order of checksum256 values (big-endian: d0 then d1). -/
def ltCk (a b : Checksum256) : Bool :=
  decide (a.d0 < b.d0) || (decide (a.d0 = b.d0) && decide (a.d1 < b.d1))

/-- Lexicographic order of at.e.nra keys in declared field order. -/
def ltATKey (a b : ATKey) : Bool :=
  decide (a.name < b.name) ||
  (decide (a.name = b.name) &&
    (decide (a.receipt_receiver < b.receipt_receiver) ||
      (decide (a.receipt_receiver = b.receipt_receiver) &&
        (decide (a.account < b.account) ||
          (decide (a.account = b.account) &&
            (decide (a.block_index < b.block_index) ||
              (decide (a.block_index = b.block_index) &&
                (ltCk a.transaction_id b.transaction_id ||
                  (decide (a.transaction_id = b.transaction_id) &&
                    decide (a.action_index < b.action_index))))))))))

/-- Well-formedness of a checksum256: both limbs fit in 128 bits. -/
def wfCk (c : Checksum256) : Prop :=
  c.d0 < 2 ^ 128 ∧ c.d1 < 2 ^ 128

instance (c : Checksum256) : Decidable (wfCk c) :=
  inferInstanceAs (Decidable (_ ∧ _))

/-- Well-formedness of an at.e.nra key: every field fits its declared width. -/
def wfATKey (k : ATKey) : Prop :=
  k.name < 2 ^ 64 ∧ k.receipt_receiver < 2 ^ 64 ∧ k.account < 2 ^ 64 ∧
  k.block_index < 2 ^ 32 ∧ wfCk k.transaction_id ∧ k.action_index < 2 ^ 32

instance (k : ATKey) : Decidable (wfATKey k) :=
  inferInstanceAs (Decidable (_ ∧ _))

/-- The maximal at.e.nra key (every field at its width's maximum). -/
def maxATKey : ATKey :=
  ⟨2 ^ 64 - 1, 2 ^ 64 - 1, 2 ^ 64 - 1, 2 ^ 32 - 1, ⟨2 ^ 128 - 1, 2 ^ 128 - 1⟩, 2 ^ 32 - 1⟩

/-! ## for_each_query_result / for_each_contract_row (database.hpp)

The row unpackers (datastream extraction) are abstracted as functions from the
raw blob; the user callback may carry state (it is an arbitrary callable in the
source), modelled by explicit state passing. -/

/-- A contract_row as decoded from a query result blob; value keeps the raw
    datastream bytes. -/
structure ContractRow where
  block_index : Nat
  present : Bool
  code : Nat
  scope : Nat
  table : Nat
  primary_key : Nat
  payer : Nat
  value : List Nat
deriving DecidableEq

/-- Loop of for_each_query_result: size rows remain; each iteration reads a
    length-prefixed row blob, unpacks it, and calls f, stopping with false the
    first time f returns false.  Parse failure (datastream past end) is none. -/
def forEachGo {σ R : Type} (unpack : List Nat → R) (f : σ → R → Bool × σ) :
    Nat → List Nat → σ → Option (Bool × σ)
  | 0, _, s => some (true, s)
  | k + 1, bs, s =>
    match readInputBuffer bs with
    | none => none
    | some (blob, rest) =>
      let r := unpack blob
      let p := f s r
      if p.1 then forEachGo unpack f k rest p.2 else some (false, p.2)

/-- for_each_query_result: decode the varuint32 row count, then iterate. -/
def for_each_query_result {σ R : Type} (unpack : List Nat → R) (f : σ → R → Bool × σ)
    (bytes : List Nat) (s : σ) : Option (Bool × σ) :=
  match decodeVaruint bytes with
  | none => none
  | some (n, rest) => forEachGo unpack f n rest s

/-- for_each_contract_row: iterate over contract_row blobs; when the row is
    present and its value datastream has bytes remaining, unpack the value and
    pass a non-null pointer (some), otherwise pass nullptr (none). -/
def for_each_contract_row {σ T : Type} (unpackRow : List Nat → ContractRow)
    (unpackT : List Nat → T) (f : σ → ContractRow → Option T → Bool × σ)
    (bytes : List Nat) (s : σ) : Option (Bool × σ) :=
  for_each_query_result unpackRow
    (fun s row =>
      if row.present && decide (row.value.length ≠ 0) then
        let p := unpackT row.value
        f s row (some p)
      else f s row none)
    bytes s

/-- The data argument for_each_contract_row passes to the callback for a row. -/
def callArg {T : Type} (unpackT : List Nat → T) (row : ContractRow) : Option T :=
  if row.present && decide (row.value.length ≠ 0) then some (unpackT row.value) else none

/-! ## Concrete test fixtures -/

/-- A snapshot cursor with head block 1. -/
def testFill : FillStatus := ⟨1, 42, 1, 42, 1⟩

/-- An attempt whose session always forks (get_block_id finds no id). -/
def envFork : AttemptEnv := ⟨testFill, fun _ _ => none, fun _ _ => []⟩

/-- An attempt whose session stays on head_id 42 and whose guest replies with
    the single byte 9. -/
def envOk : AttemptEnv := ⟨testFill, fun _ _ => some 42, fun _ _ => [9]⟩

/-- An attempt against an empty database (head 0). -/
def envEmpty : AttemptEnv := ⟨⟨0, 0, 0, 0, 0⟩, fun _ _ => none, fun _ _ => []⟩

/-- A request with one sub-request: namespace local, short name 5, payload
    bytes 1 2. -/
def testReq : List Nat := encodeRequest [(5, [1, 2])]

/-! ## Codec lemmas -/

theorem readBytes_append (xs ys : List Nat) : readBytes xs.length (xs ++ ys) = some (xs, ys) := by
  simp [readBytes]

theorem decodeVaruintAux_encode (f : Nat) : ∀ (n acc shift : Nat) (rest : List Nat),
    n < 2 ^ (7 * (f + 1)) → acc + n * 2 ^ shift < 2 ^ 32 →
    decodeVaruintAux (f + 1) acc shift (encodeVaruintAux (f + 1) n ++ rest) =
      some (acc + n * 2 ^ shift, rest) := by
  induction f with
  | zero =>
    intro n acc shift rest hn hacc
    have hn128 : n < 128 := by norm_num at hn; omega
    simp only [encodeVaruintAux, if_pos hn128, List.cons_append, List.nil_append,
      decodeVaruintAux, if_pos hn128]
    rw [Nat.mod_eq_of_lt hn128, Nat.mod_eq_of_lt hacc]
  | succ f ih =>
    intro n acc shift rest hn hacc
    by_cases hn128 : n < 128
    · simp only [encodeVaruintAux, if_pos hn128, List.cons_append, List.nil_append,
        decodeVaruintAux, if_pos hn128]
      rw [Nat.mod_eq_of_lt hn128, Nat.mod_eq_of_lt hacc]
    · have hmod : n % 128 < 128 := Nat.mod_lt _ (by norm_num)
      have hb : ¬ (n % 128 + 128 < 128) := by omega
      have hbmod : (n % 128 + 128) % 128 = n % 128 := by omega
      have hrec : n % 128 + 128 * (n / 128) = n := Nat.mod_add_div n 128
      have hle : n % 128 * 2 ^ shift ≤ n * 2 ^ shift :=
        Nat.mul_le_mul_right _ (Nat.mod_le n 128)
      have hacc2 : acc + n % 128 * 2 ^ shift < 2 ^ 32 := by omega
      have henc : encodeVaruintAux (f + 1 + 1) n =
          (n % 128 + 128) :: encodeVaruintAux (f + 1) (n / 128) := by
        simp only [encodeVaruintAux]
        rw [if_neg hn128]
      rw [henc, List.cons_append]
      simp only [decodeVaruintAux, if_neg hb, hbmod]
      rw [Nat.mod_eq_of_lt hacc2]
      have hdiv : n / 128 < 2 ^ (7 * (f + 1)) := by
        rw [Nat.div_lt_iff_lt_mul (by norm_num : (0:Nat) < 128)]
        have he : 7 * (f + 1 + 1) = 7 * (f + 1) + 7 := by ring
        rw [he, pow_add] at hn
        norm_num at hn
        exact hn
      have hval : acc + n % 128 * 2 ^ shift + n / 128 * 2 ^ (shift + 7) =
          acc + n * 2 ^ shift := by
        rw [pow_add]
        have : n / 128 * (2 ^ shift * 2 ^ 7) = 128 * (n / 128) * 2 ^ shift := by ring
        rw [this]
        calc acc + n % 128 * 2 ^ shift + 128 * (n / 128) * 2 ^ shift
            = acc + (n % 128 + 128 * (n / 128)) * 2 ^ shift := by ring
          _ = acc + n * 2 ^ shift := by rw [hrec]
      rw [ih (n / 128) (acc + n % 128 * 2 ^ shift) (shift + 7) rest hdiv (by omega), hval]

theorem decodeVaruint_encode (n : Nat) (rest : List Nat) (h : n < 2 ^ 32) :
    decodeVaruint (encodeVaruint n ++ rest) = some (n, rest) := by
  have := decodeVaruintAux_encode 4 n 0 0 rest (by norm_num at h ⊢; omega) (by simpa using h)
  simpa [decodeVaruint, encodeVaruint] using this

theorem readInputBuffer_encode (body rest : List Nat) (h : body.length < 2 ^ 32) :
    readInputBuffer (encodeVaruint body.length ++ (body ++ rest)) = some (body, rest) := by
  simp only [readInputBuffer, decodeVaruint_encode body.length (body ++ rest) h,
    readBytes_append]

theorem readU64LE_u64ToLE (n : Nat) (rest : List Nat) (h : n < 2 ^ 64) :
    readU64LE (u64ToLE n ++ rest) = some (n, rest) := by
  simp only [u64ToLE, List.cons_append, List.nil_append, readU64LE, Option.some.injEq,
    Prod.mk.injEq, and_true]
  norm_num
  omega

theorem localName_lt : localName < 2 ^ 64 := by
  norm_num [localName]

/-! ## Retry-loop lemmas -/

theorem retry_go_ok (envs : Nat → AttemptEnv) (request : List Nat) :
    ∀ (fuel k g c : Nat) (r : List Nat) (a g2 c2 : Nat),
    retry_go envs request k fuel g c = ⟨.ok r, a, g2, c2⟩ →
    ∃ j, k ≤ j ∧ j < k + fuel ∧ (envs j).fill.head ≠ 0 ∧
      (runAttempt (envs j) request).outcome = .ok (some r) ∧ a = j + 1 ∧
      ∀ i, k ≤ i → i < j → (envs i).fill.head ≠ 0 ∧
        (runAttempt (envs i) request).outcome = .ok none := by
  intro fuel
  induction fuel with
  | zero =>
    intro k g c r a g2 c2 h
    simp only [retry_go, QueryOutcome.mk.injEq] at h
    exact absurd h.1 (by simp)
  | succ fuel ih =>
    intro k g c r a g2 c2 h
    simp only [retry_go] at h
    by_cases hh : (envs k).fill.head = 0
    · rw [if_pos hh] at h
      simp only [QueryOutcome.mk.injEq] at h
      exact absurd h.1 (by simp)
    · rw [if_neg hh] at h
      rcases hout : (runAttempt (envs k) request).outcome with e | op
      · rw [hout] at h
        simp only [QueryOutcome.mk.injEq] at h
        exact absurd h.1 (by simp)
      · rcases op with _ | rep
        · rw [hout] at h
          obtain ⟨j, hkj, hjf, hjh, hjout, hja, hprev⟩ := ih (k + 1) _ _ r a g2 c2 h
          refine ⟨j, by omega, by omega, hjh, hjout, hja, fun i h1 h2 => ?_⟩
          rcases Nat.eq_or_lt_of_le h1 with rfl | h1'
          · exact ⟨hh, hout⟩
          · exact hprev i h1' h2
        · rw [hout] at h
          simp only [QueryOutcome.mk.injEq] at h
          obtain ⟨h1, h2, _, _⟩ := h
          rw [Except.ok.injEq] at h1
          refine ⟨k, le_rfl, by omega, hh, ?_, by omega, fun i hi1 hi2 => by omega⟩
          rw [hout, h1]

theorem retry_go_all_fork (envs : Nat → AttemptEnv) (request : List Nat) :
    ∀ (fuel k g c : Nat),
    (∀ j, j < fuel → (envs (k + j)).fill.head ≠ 0 ∧
      (runAttempt (envs (k + j)) request).outcome = .ok none) →
    ∃ g2 c2, retry_go envs request k fuel g c = ⟨.error .too_many_forks, k + fuel, g2, c2⟩ := by
  intro fuel
  induction fuel with
  | zero =>
    intro k g c _
    exact ⟨g, c, by simp [retry_go]⟩
  | succ fuel ih =>
    intro k g c hf
    have h0 := hf 0 (by omega)
    simp only [Nat.add_zero] at h0
    obtain ⟨hh, hout⟩ := h0
    have harg : ∀ j, j < fuel → (envs (k + 1 + j)).fill.head ≠ 0 ∧
        (runAttempt (envs (k + 1 + j)) request).outcome = .ok none := fun j hj => by
      have := hf (j + 1) (by omega)
      have he : k + (j + 1) = k + 1 + j := by omega
      rwa [he] at this
    obtain ⟨g2, c2, hrec⟩ := ih (k + 1) (g + (runAttempt (envs k) request).guestCalls)
      (c + (runAttempt (envs k) request).forkChecks) harg
    refine ⟨g2, c2, ?_⟩
    have he : k + (fuel + 1) = (k + 1) + fuel := by omega
    rw [he]
    simpa [retry_go, if_neg hh, hout] using hrec

theorem retry_go_commit (envs : Nat → AttemptEnv) (request : List Nat) :
    ∀ (m fuel k g c : Nat) (r : List Nat),
    m < fuel →
    (∀ j, j < m → (envs (k + j)).fill.head ≠ 0 ∧
      (runAttempt (envs (k + j)) request).outcome = .ok none) →
    (envs (k + m)).fill.head ≠ 0 →
    (runAttempt (envs (k + m)) request).outcome = .ok (some r) →
    ∃ g2 c2, retry_go envs request k fuel g c = ⟨.ok r, k + m + 1, g2, c2⟩ := by
  intro m
  induction m with
  | zero =>
    intro fuel k g c r hm _ hh hout
    obtain ⟨fuel2, rfl⟩ : ∃ f, fuel = f + 1 := ⟨fuel - 1, by omega⟩
    simp only [Nat.add_zero] at hh hout
    exact ⟨g + (runAttempt (envs k) request).guestCalls,
      c + (runAttempt (envs k) request).forkChecks, by simp [retry_go, if_neg hh, hout]⟩
  | succ m ih =>
    intro fuel k g c r hm hprev hh hout
    obtain ⟨fuel2, rfl⟩ : ∃ f, fuel = f + 1 := ⟨fuel - 1, by omega⟩
    have h0 := hprev 0 (by omega)
    simp only [Nat.add_zero] at h0
    obtain ⟨hh0, hout0⟩ := h0
    have hprev2 : ∀ j, j < m → (envs (k + 1 + j)).fill.head ≠ 0 ∧
        (runAttempt (envs (k + 1 + j)) request).outcome = .ok none := fun j hj => by
      have := hprev (j + 1) (by omega)
      have he : k + (j + 1) = k + 1 + j := by omega
      rwa [he] at this
    have he : k + (m + 1) = k + 1 + m := by omega
    rw [he] at hh hout
    obtain ⟨g2, c2, hrec⟩ := ih fuel2 (k + 1) (g + (runAttempt (envs k) request).guestCalls)
      (c + (runAttempt (envs k) request).forkChecks) r (by omega) hprev2 hh hout
    refine ⟨g2, c2, ?_⟩
    have he2 : k + (m + 1) + 1 = k + 1 + m + 1 := by omega
    rw [he2]
    simpa [retry_go, if_neg hh0, hout0] using hrec

theorem retry_go_congr (envs envs2 : Nat → AttemptEnv) (request : List Nat) :
    ∀ (fuel k g c : Nat),
    (∀ j, k ≤ j → j < k + fuel → envs j = envs2 j) →
    retry_go envs request k fuel g c = retry_go envs2 request k fuel g c := by
  intro fuel
  induction fuel with
  | zero => intro k g c _; simp [retry_go]
  | succ fuel ih =>
    intro k g c ha
    have hk : envs k = envs2 k := ha k le_rfl (by omega)
    simp only [retry_go, hk]
    by_cases hh : (envs2 k).fill.head = 0
    · rw [if_pos hh, if_pos hh]
    · rw [if_neg hh, if_neg hh]
      rcases hout : (runAttempt (envs2 k) request).outcome with e | op
      · simp only [hout]
      · rcases op with _ | rep
        · simp only [hout]
          exact ih (k + 1) _ _ (fun j h1 h2 => ha j (by omega) (by omega))
        · simp only [hout]

theorem retry_go_empty (envs : Nat → AttemptEnv) (request : List Nat)
    (k fuel g c : Nat) (h : (envs k).fill.head = 0) :
    retry_go envs request k (fuel + 1) g c = ⟨.error .empty_database, k + 1, g, c⟩ := by
  simp [retry_go, if_pos h]

/-! ## Sub-request loop lemmas -/

theorem queryLoop_some (env : AttemptEnv) :
    ∀ (n : Nat) (bin acc : List Nat) (done : Nat) (r : List Nat) (g c : Nat),
    queryLoop env n bin acc done = ⟨.ok (some r), g, c⟩ →
    g = c ∧ done ≤ g ∧ ∀ i, done ≤ i → i < g → did_fork (env.gbi i) env.fill = false := by
  intro n
  induction n with
  | zero =>
    intro bin acc done r g c h
    simp only [queryLoop, AttemptRes.mk.injEq] at h
    refine ⟨by omega, by omega, fun i h1 h2 => by omega⟩
  | succ n ih =>
    intro bin acc done r g c h
    simp only [queryLoop] at h
    split at h
    · exact absurd (congrArg AttemptRes.outcome h) (by simp)
    · split at h
      · exact absurd (congrArg AttemptRes.outcome h) (by simp)
      · split at h
        · split at h
          · exact absurd (congrArg AttemptRes.outcome h) (by simp)
          · split at h
            · exact absurd (congrArg AttemptRes.outcome h) (by simp)
            · next hf =>
              obtain ⟨hgc, hle, hforks⟩ := ih _ _ _ r g c h
              refine ⟨hgc, by omega, fun i hi1 hi2 => ?_⟩
              rcases Nat.eq_or_lt_of_le hi1 with rfl | hi3
              · exact eq_false_of_ne_true hf
              · exact hforks i hi3 hi2
        · exact absurd (congrArg AttemptRes.outcome h) (by simp)

theorem queryLoop_fork (env : AttemptEnv) :
    ∀ (n : Nat) (bin acc : List Nat) (done : Nat) (g c : Nat),
    queryLoop env n bin acc done = ⟨.ok none, g, c⟩ →
    g = c ∧ done < g ∧ did_fork (env.gbi (g - 1)) env.fill = true ∧
      ∀ i, done ≤ i → i < g - 1 → did_fork (env.gbi i) env.fill = false := by
  intro n
  induction n with
  | zero =>
    intro bin acc done g c h
    exact absurd (congrArg AttemptRes.outcome h) (by simp [queryLoop])
  | succ n ih =>
    intro bin acc done g c h
    simp only [queryLoop] at h
    split at h
    · exact absurd (congrArg AttemptRes.outcome h) (by simp)
    · split at h
      · exact absurd (congrArg AttemptRes.outcome h) (by simp)
      · split at h
        · split at h
          · exact absurd (congrArg AttemptRes.outcome h) (by simp)
          · split at h
            · next hf =>
              have hg := congrArg AttemptRes.guestCalls h
              have hc := congrArg AttemptRes.forkChecks h
              simp only at hg hc
              refine ⟨by omega, by omega, ?_, fun i hi1 hi2 => by omega⟩
              have : g - 1 = done := by omega
              rw [this]
              exact hf
            · next hf =>
              obtain ⟨hgc, hlt, hlast, hforks⟩ := ih _ _ _ g c h
              refine ⟨hgc, by omega, hlast, fun i hi1 hi2 => ?_⟩
              rcases Nat.eq_or_lt_of_le hi1 with rfl | hi3
              · exact eq_false_of_ne_true hf
              · exact hforks i hi3 hi2
        · exact absurd (congrArg AttemptRes.outcome h) (by simp)

theorem u64ToLE_length (n : Nat) : (u64ToLE n).length = 8 := rfl

theorem queryLoop_cons (env : AttemptEnv) (sn : Nat) (pl tail acc : List Nat) (done n : Nat)
    (hsn : sn < 2 ^ 64) (hpl : 16 + pl.length < 2 ^ 32) :
    queryLoop env (n + 1) (encodeSubRequest sn pl ++ tail) acc done =
      (if did_fork (env.gbi done) env.fill then (⟨.ok none, done + 1, done + 1⟩ : AttemptRes)
       else queryLoop env n tail
         (acc ++ encodeVaruint ((env.guest sn pl).length % 2 ^ 32) ++ env.guest sn pl)
         (done + 1)) := by
  have hb : (u64ToLE localName ++ (u64ToLE sn ++ pl)).length < 2 ^ 32 := by
    simp [u64ToLE]
    omega
  simp only [queryLoop, encodeSubRequest]
  rw [List.append_assoc, readInputBuffer_encode _ _ hb]
  simp only [readU64LE_u64ToLE _ _ localName_lt, readU64LE_u64ToLE _ _ hsn, if_pos rfl,
    if_true]

theorem queryLoop_encode (env : AttemptEnv)
    (hrep : ∀ sn pl, (env.guest sn pl).length < 2 ^ 32) :
    ∀ (subs : List (Nat × List Nat)) (rest acc : List Nat) (done : Nat)
      (r : List Nat) (g c : Nat),
    (∀ s ∈ subs, s.1 < 2 ^ 64) →
    (∀ s ∈ subs, 16 + s.2.length < 2 ^ 32) →
    queryLoop env subs.length
      (joinList (subs.map fun s => encodeSubRequest s.1 s.2) ++ rest) acc done
      = ⟨.ok (some r), g, c⟩ →
    r = acc ++ joinList (subs.map fun s =>
      encodeVaruint (env.guest s.1 s.2).length ++ env.guest s.1 s.2) := by
  intro subs
  induction subs with
  | nil =>
    intro rest acc done r g c _ _ h
    simp only [List.map_nil, joinList, List.nil_append, queryLoop, AttemptRes.mk.injEq,
      Except.ok.injEq, Option.some.injEq] at h
    simp [joinList, ← h.1]
  | cons s subs ih =>
    intro rest acc done r g c hsn hpl h
    obtain ⟨sn, pl⟩ := s
    simp only [List.map_cons, joinList, List.length_cons, List.append_assoc] at h
    rw [queryLoop_cons env sn pl _ acc done subs.length
      (hsn _ (List.mem_cons_self _ _)) (hpl _ (List.mem_cons_self _ _))] at h
    by_cases hf : did_fork (env.gbi done) env.fill = true
    · rw [if_pos hf] at h
      exact absurd (congrArg AttemptRes.outcome h) (by simp)
    · rw [if_neg hf] at h
      have := ih _ _ _ r g c (fun x hx => hsn x (List.mem_cons_of_mem _ hx))
        (fun x hx => hpl x (List.mem_cons_of_mem _ hx)) h
      rw [Nat.mod_eq_of_lt (hrep sn pl)] at this
      simp only [List.map_cons, joinList, this]
      simp [List.append_assoc]

/-! ## Iteration lemmas (for_each_contract_row) -/

theorem contract_row_wrapper_eq {T : Type} (unpackT : List Nat → T)
    (g : ContractRow → Option T → Bool) :
    (fun (s : List (ContractRow × Option T)) row =>
      if row.present && decide (row.value.length ≠ 0) then
        let p := unpackT row.value
        (g row (some p), s ++ [(row, some p)])
      else (g row none, s ++ [(row, none)])) =
    fun s row => (g row (callArg unpackT row), s ++ [(row, callArg unpackT row)]) := by
  funext s row
  by_cases hc : (row.present && decide (row.value.length ≠ 0)) = true
  · simp only [callArg, if_pos hc]
  · simp only [callArg, if_neg hc]

theorem forEachGo_record {T : Type} (unpackRow : List Nat → ContractRow)
    (unpackT : List Nat → T) (g : ContractRow → Option T → Bool) :
    ∀ (blobs : List (List Nat)) (rest : List Nat) (s : List (ContractRow × Option T)),
    (∀ b ∈ blobs, b.length < 2 ^ 32) →
    forEachGo unpackRow
      (fun s row => (g row (callArg unpackT row), s ++ [(row, callArg unpackT row)]))
      blobs.length (joinList (blobs.map fun b => encodeVaruint b.length ++ b) ++ rest) s =
    some ((blobs.map unpackRow).all (fun row => g row (callArg unpackT row)),
      s ++ (((blobs.map unpackRow).takeWhile (fun row => g row (callArg unpackT row)) ++
        ((blobs.map unpackRow).dropWhile (fun row => g row (callArg unpackT row))).take 1).map
        fun row => (row, callArg unpackT row)) ) := by
  intro blobs
  induction blobs with
  | nil =>
    intro rest s _
    simp [forEachGo, joinList]
  | cons b blobs ih =>
    intro rest s hlen
    have hb : b.length < 2 ^ 32 := hlen b (List.mem_cons_self _ _)
    simp only [List.map_cons, joinList, List.length_cons, List.append_assoc, forEachGo]
    rw [readInputBuffer_encode _ _ hb]
    by_cases hg : g (unpackRow b) (callArg unpackT (unpackRow b)) = true
    · have ihh := ih rest (s ++ [(unpackRow b, callArg unpackT (unpackRow b))])
        (fun x hx => hlen x (List.mem_cons_of_mem _ hx))
      simp [hg, ihh, List.takeWhile_cons, List.dropWhile_cons, List.map_take]
    · simp only [Bool.not_eq_true] at hg
      simp [hg, List.takeWhile_cons, List.dropWhile_cons, List.map_take]

/-! ## increment_key lemmas -/

theorem inc_u_of_lt (w k : Nat) (h : k + 1 < 2 ^ w) : inc_u w k = (k + 1, false) := by
  have hm : (k + 1) % 2 ^ w = k + 1 := Nat.mod_eq_of_lt h
  simp [inc_u, hm]

theorem inc_u_wrap (w : Nat) : inc_u w (2 ^ w - 1) = (0, true) := by
  have h : 2 ^ w - 1 + 1 = 2 ^ w := Nat.succ_pred_eq_of_pos (pow_pos (by norm_num) w)
  simp [inc_u, h, Nat.mod_self]

theorem inc_u_eq_wrap (w k : Nat) (e : k = 2 ^ w - 1) : inc_u w k = (0, true) := by
  rw [e]
  exact inc_u_wrap w

theorem increment_key_checksum_nowrap (c : Checksum256) (h : c.d1 + 1 < 2 ^ 128) :
    increment_key_checksum c = (⟨c.d0, c.d1 + 1⟩, false) := by
  have e : inc_u 128 c.d1 = (c.d1 + 1, false) := inc_u_of_lt 128 c.d1 h
  simp [increment_key_checksum, e]

theorem increment_key_checksum_carry (c : Checksum256) (h1 : c.d1 = 2 ^ 128 - 1)
    (h0 : c.d0 + 1 < 2 ^ 128) :
    increment_key_checksum c = (⟨c.d0 + 1, 0⟩, false) := by
  have e1 : inc_u 128 c.d1 = (0, true) := inc_u_eq_wrap 128 c.d1 h1
  have e0 : inc_u 128 c.d0 = (c.d0 + 1, false) := inc_u_of_lt 128 c.d0 h0
  simp [increment_key_checksum, e1, e0]

theorem increment_key_checksum_wrapped (c : Checksum256) (h1 : c.d1 = 2 ^ 128 - 1)
    (h0 : c.d0 = 2 ^ 128 - 1) :
    increment_key_checksum c = (⟨0, 0⟩, true) := by
  have e1 : inc_u 128 c.d1 = (0, true) := inc_u_eq_wrap 128 c.d1 h1
  have e0 : inc_u 128 c.d0 = (0, true) := inc_u_eq_wrap 128 c.d0 h0
  simp [increment_key_checksum, e1, e0]

theorem increment_key_at_case0 (k : ATKey) (h : k.action_index + 1 < 2 ^ 32) :
    increment_key_at k = (⟨k.name, k.receipt_receiver, k.account, k.block_index,
      k.transaction_id, k.action_index + 1⟩, false) := by
  have ea : inc_u 32 k.action_index = (k.action_index + 1, false) := inc_u_of_lt 32 _ h
  simp [increment_key_at, ea]

theorem increment_key_at_case1 (k : ATKey) (e1 : k.action_index = 2 ^ 32 - 1)
    (h : k.transaction_id.d1 + 1 < 2 ^ 128) :
    increment_key_at k = (⟨k.name, k.receipt_receiver, k.account, k.block_index,
      ⟨k.transaction_id.d0, k.transaction_id.d1 + 1⟩, 0⟩, false) := by
  have ea : inc_u 32 k.action_index = (0, true) := inc_u_eq_wrap 32 _ e1
  have et := increment_key_checksum_nowrap k.transaction_id h
  simp [increment_key_at, ea, et]

theorem increment_key_at_case2 (k : ATKey) (e1 : k.action_index = 2 ^ 32 - 1)
    (e2 : k.transaction_id.d1 = 2 ^ 128 - 1) (h : k.transaction_id.d0 + 1 < 2 ^ 128) :
    increment_key_at k = (⟨k.name, k.receipt_receiver, k.account, k.block_index,
      ⟨k.transaction_id.d0 + 1, 0⟩, 0⟩, false) := by
  have ea : inc_u 32 k.action_index = (0, true) := inc_u_eq_wrap 32 _ e1
  have et := increment_key_checksum_carry k.transaction_id e2 h
  simp [increment_key_at, ea, et]

theorem increment_key_at_case3 (k : ATKey) (e1 : k.action_index = 2 ^ 32 - 1)
    (e2 : k.transaction_id.d1 = 2 ^ 128 - 1) (e3 : k.transaction_id.d0 = 2 ^ 128 - 1)
    (h : k.block_index + 1 < 2 ^ 32) :
    increment_key_at k = (⟨k.name, k.receipt_receiver, k.account, k.block_index + 1,
      ⟨0, 0⟩, 0⟩, false) := by
  have ea : inc_u 32 k.action_index = (0, true) := inc_u_eq_wrap 32 _ e1
  have et := increment_key_checksum_wrapped k.transaction_id e2 e3
  have eb : inc_u 32 k.block_index = (k.block_index + 1, false) := inc_u_of_lt 32 _ h
  simp [increment_key_at, ea, et, eb]

theorem increment_key_at_case4 (k : ATKey) (e1 : k.action_index = 2 ^ 32 - 1)
    (e2 : k.transaction_id.d1 = 2 ^ 128 - 1) (e3 : k.transaction_id.d0 = 2 ^ 128 - 1)
    (e4 : k.block_index = 2 ^ 32 - 1) (h : k.account + 1 < 2 ^ 64) :
    increment_key_at k = (⟨k.name, k.receipt_receiver, k.account + 1, 0,
      ⟨0, 0⟩, 0⟩, false) := by
  have ea : inc_u 32 k.action_index = (0, true) := inc_u_eq_wrap 32 _ e1
  have et := increment_key_checksum_wrapped k.transaction_id e2 e3
  have eb : inc_u 32 k.block_index = (0, true) := inc_u_eq_wrap 32 _ e4
  have ec : inc_u 64 k.account = (k.account + 1, false) := inc_u_of_lt 64 _ h
  simp [increment_key_at, ea, et, eb, ec]

theorem increment_key_at_case5 (k : ATKey) (e1 : k.action_index = 2 ^ 32 - 1)
    (e2 : k.transaction_id.d1 = 2 ^ 128 - 1) (e3 : k.transaction_id.d0 = 2 ^ 128 - 1)
    (e4 : k.block_index = 2 ^ 32 - 1) (e5 : k.account = 2 ^ 64 - 1)
    (h : k.receipt_receiver + 1 < 2 ^ 64) :
    increment_key_at k = (⟨k.name, k.receipt_receiver + 1, 0, 0, ⟨0, 0⟩, 0⟩, false) := by
  have ea : inc_u 32 k.action_index = (0, true) := inc_u_eq_wrap 32 _ e1
  have et := increment_key_checksum_wrapped k.transaction_id e2 e3
  have eb : inc_u 32 k.block_index = (0, true) := inc_u_eq_wrap 32 _ e4
  have ec : inc_u 64 k.account = (0, true) := inc_u_eq_wrap 64 _ e5
  have er : inc_u 64 k.receipt_receiver = (k.receipt_receiver + 1, false) :=
    inc_u_of_lt 64 _ h
  simp [increment_key_at, ea, et, eb, ec, er]

theorem increment_key_at_case6 (k : ATKey) (e1 : k.action_index = 2 ^ 32 - 1)
    (e2 : k.transaction_id.d1 = 2 ^ 128 - 1) (e3 : k.transaction_id.d0 = 2 ^ 128 - 1)
    (e4 : k.block_index = 2 ^ 32 - 1) (e5 : k.account = 2 ^ 64 - 1)
    (e6 : k.receipt_receiver = 2 ^ 64 - 1) (h : k.name + 1 < 2 ^ 64) :
    increment_key_at k = (⟨k.name + 1, 0, 0, 0, ⟨0, 0⟩, 0⟩, false) := by
  have ea : inc_u 32 k.action_index = (0, true) := inc_u_eq_wrap 32 _ e1
  have et := increment_key_checksum_wrapped k.transaction_id e2 e3
  have eb : inc_u 32 k.block_index = (0, true) := inc_u_eq_wrap 32 _ e4
  have ec : inc_u 64 k.account = (0, true) := inc_u_eq_wrap 64 _ e5
  have er : inc_u 64 k.receipt_receiver = (0, true) := inc_u_eq_wrap 64 _ e6
  have en : inc_u 64 k.name = (k.name + 1, false) := inc_u_of_lt 64 _ h
  simp [increment_key_at, ea, et, eb, ec, er, en]

theorem increment_key_at_case7 (k : ATKey) (e1 : k.action_index = 2 ^ 32 - 1)
    (e2 : k.transaction_id.d1 = 2 ^ 128 - 1) (e3 : k.transaction_id.d0 = 2 ^ 128 - 1)
    (e4 : k.block_index = 2 ^ 32 - 1) (e5 : k.account = 2 ^ 64 - 1)
    (e6 : k.receipt_receiver = 2 ^ 64 - 1) (e7 : k.name = 2 ^ 64 - 1) :
    increment_key_at k = (⟨0, 0, 0, 0, ⟨0, 0⟩, 0⟩, true) := by
  have ea : inc_u 32 k.action_index = (0, true) := inc_u_eq_wrap 32 _ e1
  have et := increment_key_checksum_wrapped k.transaction_id e2 e3
  have eb : inc_u 32 k.block_index = (0, true) := inc_u_eq_wrap 32 _ e4
  have ec : inc_u 64 k.account = (0, true) := inc_u_eq_wrap 64 _ e5
  have er : inc_u 64 k.receipt_receiver = (0, true) := inc_u_eq_wrap 64 _ e6
  have en : inc_u 64 k.name = (0, true) := inc_u_eq_wrap 64 _ e7
  simp [increment_key_at, ea, et, eb, ec, er, en]

theorem increment_key_at_lt (k : ATKey) (hwf : wfATKey k)
    (h : (increment_key_at k).2 = false) : ltATKey k (increment_key_at k).1 = true := by
  obtain ⟨h1, h2, h3, h4, ⟨h5a, h5b⟩, h6⟩ := hwf
  by_cases c1 : k.action_index + 1 < 2 ^ 32
  · rw [increment_key_at_case0 k c1]
    simp [ltATKey, ltCk]
  · have e1 : k.action_index = 2 ^ 32 - 1 := by omega
    by_cases c2 : k.transaction_id.d1 + 1 < 2 ^ 128
    · rw [increment_key_at_case1 k e1 c2]
      simp [ltATKey, ltCk]
    · have e2 : k.transaction_id.d1 = 2 ^ 128 - 1 := by omega
      by_cases c3 : k.transaction_id.d0 + 1 < 2 ^ 128
      · rw [increment_key_at_case2 k e1 e2 c3]
        simp [ltATKey, ltCk]
      · have e3 : k.transaction_id.d0 = 2 ^ 128 - 1 := by omega
        by_cases c4 : k.block_index + 1 < 2 ^ 32
        · rw [increment_key_at_case3 k e1 e2 e3 c4]
          simp [ltATKey, ltCk]
        · have e4 : k.block_index = 2 ^ 32 - 1 := by omega
          by_cases c5 : k.account + 1 < 2 ^ 64
          · rw [increment_key_at_case4 k e1 e2 e3 e4 c5]
            simp [ltATKey, ltCk]
          · have e5 : k.account = 2 ^ 64 - 1 := by omega
            by_cases c6 : k.receipt_receiver + 1 < 2 ^ 64
            · rw [increment_key_at_case5 k e1 e2 e3 e4 e5 c6]
              simp [ltATKey, ltCk]
            · have e6 : k.receipt_receiver = 2 ^ 64 - 1 := by omega
              by_cases c7 : k.name + 1 < 2 ^ 64
              · rw [increment_key_at_case6 k e1 e2 e3 e4 e5 e6 c7]
                simp [ltATKey, ltCk]
              · have e7 : k.name = 2 ^ 64 - 1 := by omega
                rw [increment_key_at_case7 k e1 e2 e3 e4 e5 e6 e7] at h
                simp at h

theorem increment_key_at_wrap_iff (k : ATKey) (hwf : wfATKey k) :
    (increment_key_at k).2 = true ↔ k = maxATKey := by
  obtain ⟨h1, h2, h3, h4, ⟨h5a, h5b⟩, h6⟩ := hwf
  constructor
  · intro h
    by_cases c1 : k.action_index + 1 < 2 ^ 32
    · rw [increment_key_at_case0 k c1] at h
      simp at h
    · have e1 : k.action_index = 2 ^ 32 - 1 := by omega
      by_cases c2 : k.transaction_id.d1 + 1 < 2 ^ 128
      · rw [increment_key_at_case1 k e1 c2] at h
        simp at h
      · have e2 : k.transaction_id.d1 = 2 ^ 128 - 1 := by omega
        by_cases c3 : k.transaction_id.d0 + 1 < 2 ^ 128
        · rw [increment_key_at_case2 k e1 e2 c3] at h
          simp at h
        · have e3 : k.transaction_id.d0 = 2 ^ 128 - 1 := by omega
          by_cases c4 : k.block_index + 1 < 2 ^ 32
          · rw [increment_key_at_case3 k e1 e2 e3 c4] at h
            simp at h
          · have e4 : k.block_index = 2 ^ 32 - 1 := by omega
            by_cases c5 : k.account + 1 < 2 ^ 64
            · rw [increment_key_at_case4 k e1 e2 e3 e4 c5] at h
              simp at h
            · have e5 : k.account = 2 ^ 64 - 1 := by omega
              by_cases c6 : k.receipt_receiver + 1 < 2 ^ 64
              · rw [increment_key_at_case5 k e1 e2 e3 e4 e5 c6] at h
                simp at h
              · have e6 : k.receipt_receiver = 2 ^ 64 - 1 := by omega
                by_cases c7 : k.name + 1 < 2 ^ 64
                · rw [increment_key_at_case6 k e1 e2 e3 e4 e5 e6 c7] at h
                  simp at h
                · have e7 : k.name = 2 ^ 64 - 1 := by omega
                  rcases k with ⟨n, rr, ac, bi, ⟨t0, t1⟩, ai⟩
                  simp only at e1 e2 e3 e4 e5 e6 e7
                  simp [maxATKey, e1, e2, e3, e4, e5, e6, e7]
  · intro h
    subst h
    decide

theorem runAttempt_encode (env : AttemptEnv)
    (hrep : ∀ sn pl, (env.guest sn pl).length < 2 ^ 32)
    (subs : List (Nat × List Nat)) (r : List Nat) (g c : Nat)
    (hsn : ∀ s ∈ subs, s.1 < 2 ^ 64)
    (hpl : ∀ s ∈ subs, 16 + s.2.length < 2 ^ 32)
    (hn : subs.length < 2 ^ 32)
    (h : runAttempt env (encodeRequest subs) = ⟨.ok (some r), g, c⟩) :
    r = encodeReply (subs.map fun s => env.guest s.1 s.2) := by
  unfold runAttempt at h
  rw [show decodeVaruint (encodeRequest subs) =
      some (subs.length, joinList (subs.map fun s => encodeSubRequest s.1 s.2)) from by
    simp only [encodeRequest]
    exact decodeVaruint_encode _ _ hn] at h
  have h2 : queryLoop env subs.length
      (joinList (subs.map fun s => encodeSubRequest s.1 s.2) ++ [])
      (encodeVaruint subs.length) 0 = ⟨.ok (some r), g, c⟩ := by
    rw [List.append_nil]
    exact h
  have h3 := queryLoop_encode env hrep subs [] (encodeVaruint subs.length) 0 r g c hsn hpl h2
  rw [h3]
  simp only [encodeReply, List.length_map, List.map_map]
  rfl

/-! ## Claim theorems -/

/-- C1: the specification requires every host call receiving a guest pointer
    pair to validate both order (begin at most end) and containment in the
    guest's linear memory.  The code's check_bounds tests only begin > end;
    the containment check is left as a todo.  With a linear memory of 4 bytes,
    the pair (0, 10) violates containment (range_in_memory), yet check_bounds
    accepts it and set_output_data goes on to read all 10 bytes. -/
theorem check_bounds_accepts_out_of_memory_range :
    ¬ range_in_memory 4 0 10 ∧ check_bounds 0 10 = .ok () ∧
    set_output_data (fun _ => 7) 0 10 = .ok (List.replicate 10 7) :=
  ⟨by decide, rfl, rfl⟩

/-- C2: whenever query commits a reply, there is a single attempt k (at most
    the fourth) whose snapshot produced the entire reply in one full run from
    the first sub-request, and every earlier attempt had a nonzero head and
    ended in a detected fork with its staged reply discarded. -/
theorem query_commit_single_snapshot (envs : Nat → AttemptEnv) (request : List Nat)
    (r : List Nat) (a g c : Nat)
    (h : query envs request = ⟨.ok r, a, g, c⟩) :
    ∃ k, k < 4 ∧ (envs k).fill.head ≠ 0 ∧
      (runAttempt (envs k) request).outcome = .ok (some r) ∧ a = k + 1 ∧
      ∀ j, j < k → (envs j).fill.head ≠ 0 ∧
        (runAttempt (envs j) request).outcome = .ok none := by
  obtain ⟨j, h0j, hj4, hh, hout, ha, hprev⟩ :=
    retry_go_ok envs request 4 0 0 0 r a g c h
  exact ⟨j, by omega, hh, hout, ha, fun i hi => hprev i (by omega) hi⟩

theorem query_commit_single_snapshot_witness :
    (runAttempt envOk testReq).outcome = .ok (some [1, 1, 9]) ∧
    query (fun i => if i = 0 then envFork else envOk) testReq = ⟨.ok [1, 1, 9], 2, 2, 2⟩ := by
  have h := query_commit_single_snapshot (fun i => if i = 0 then envFork else envOk)
    testReq [1, 1, 9] 2 2 2 rfl
  exact ⟨rfl, rfl⟩

/-- C3: if all four attempts fork, query fails with too_many_forks after
    exactly 4 attempts; the outcome never depends on a fifth snapshot
    (environments agreeing on attempts 0..3 give identical outcomes); and an
    attempt that runs without a detected fork commits immediately, with the
    attempt counter equal to k + 1. -/
theorem retry_bound_four_attempts (envs envs2 : Nat → AttemptEnv) (request : List Nat) :
    ((∀ k, k < 4 → (envs k).fill.head ≠ 0 ∧
        (runAttempt (envs k) request).outcome = .ok none) →
      (query envs request).result = .error .too_many_forks ∧
      (query envs request).attempts = 4) ∧
    ((∀ k, k < 4 → envs k = envs2 k) → query envs request = query envs2 request) ∧
    (∀ k r, k < 4 →
      (∀ j, j < k → (envs j).fill.head ≠ 0 ∧
        (runAttempt (envs j) request).outcome = .ok none) →
      (envs k).fill.head ≠ 0 →
      (runAttempt (envs k) request).outcome = .ok (some r) →
      (query envs request).result = .ok r ∧ (query envs request).attempts = k + 1) := by
  refine ⟨?_, ?_, ?_⟩
  · intro hf
    obtain ⟨g2, c2, he⟩ := retry_go_all_fork envs request 4 0 0 0
      (fun j hj => by simpa using hf j (by omega))
    have he2 : query envs request = ⟨.error .too_many_forks, 0 + 4, g2, c2⟩ := he
    rw [he2]
    exact ⟨rfl, rfl⟩
  · intro hag
    exact retry_go_congr envs envs2 request 4 0 0 0 (fun j h1 h2 => hag j (by omega))
  · intro k r hk hprev hh hout
    have hprev2 : ∀ j, j < k → (envs (0 + j)).fill.head ≠ 0 ∧
        (runAttempt (envs (0 + j)) request).outcome = .ok none :=
      fun j hj => by simpa using hprev j hj
    have hh2 : (envs (0 + k)).fill.head ≠ 0 := by simpa using hh
    have hout2 : (runAttempt (envs (0 + k)) request).outcome = .ok (some r) := by
      simpa using hout
    obtain ⟨g2, c2, he⟩ := retry_go_commit envs request k 4 0 0 0 r hk hprev2 hh2 hout2
    have he2 : query envs request = ⟨.ok r, 0 + k + 1, g2, c2⟩ := he
    rw [he2]
    refine ⟨rfl, ?_⟩
    show 0 + k + 1 = k + 1
    omega

theorem retry_bound_four_attempts_witness :
    (query (fun _ => envFork) testReq).result = .error .too_many_forks ∧
    (query (fun _ => envFork) testReq).attempts = 4 :=
  (retry_bound_four_attempts (fun _ => envFork) (fun _ => envFork) testReq).1
    (fun _ _ => ⟨by decide, rfl⟩)

/-- C4: did_fork returns true iff get_block_id at the captured head returns
    no id or an id different from the captured head_id; an attempt that
    commits had every fork check return false, and an attempt whose outcome
    is the fork state (the staged reply discarded, outcome ok none) had its
    last fork check return true. -/
theorem did_fork_iff_and_discard :
    (∀ (gbi : Nat → Option Nat) (fill : FillStatus),
      did_fork gbi fill = true ↔
        (gbi fill.head = none ∨ ∃ i, gbi fill.head = some i ∧ i ≠ fill.head_id)) ∧
    (∀ (env : AttemptEnv) (request r : List Nat) (g c : Nat),
      runAttempt env request = ⟨.ok (some r), g, c⟩ →
      ∀ i, i < c → did_fork (env.gbi i) env.fill = false) ∧
    (∀ (env : AttemptEnv) (request : List Nat) (g c : Nat),
      runAttempt env request = ⟨.ok none, g, c⟩ →
      0 < c ∧ did_fork (env.gbi (c - 1)) env.fill = true) := by
  refine ⟨?_, ?_, ?_⟩
  · intro gbi fill
    unfold did_fork
    rcases hg : gbi fill.head with _ | i
    · simp
    · simp
  · intro env request r g c h
    unfold runAttempt at h
    rcases hd : decodeVaruint request with _ | ⟨n, bin⟩
    · rw [hd] at h
      exact absurd (congrArg AttemptRes.outcome h) (by simp)
    · rw [hd] at h
      obtain ⟨hgc, hle, hforks⟩ := queryLoop_some env n bin _ 0 r g c h
      intro i hi
      exact hforks i (by omega) (by omega)
  · intro env request g c h
    unfold runAttempt at h
    rcases hd : decodeVaruint request with _ | ⟨n, bin⟩
    · rw [hd] at h
      exact absurd (congrArg AttemptRes.outcome h) (by simp)
    · rw [hd] at h
      obtain ⟨hgc, hlt, hlast, _⟩ := queryLoop_fork env n bin _ 0 g c h
      exact ⟨by omega, by rwa [hgc] at hlast⟩

theorem did_fork_iff_and_discard_witness :
    0 < 1 ∧ did_fork (envFork.gbi 0) envFork.fill = true :=
  did_fork_iff_and_discard.2.2 envFork testReq 1 1 rfl

/-- C5: each scalar increment_key overload (and name, via its packed u64)
    returns the incremented value with the wrap flag set exactly on overflow;
    the checksum256 overload increments the low limb and carries to the high
    limb only on wrap; the at.e.nra composite successor increments
    action_index and carries leftward only on wrap, reports wrap exactly at
    the maximal key (in particular only when the name field wraps), and every
    non-wrapping successor is strictly greater in the declared lexicographic
    field order. -/
theorem increment_key_spec :
    (∀ w k, k + 1 < 2 ^ w → inc_u w k = (k + 1, false) ∧ k < k + 1) ∧
    (∀ w, inc_u w (2 ^ w - 1) = (0, true)) ∧
    (∀ k, k + 1 < 2 ^ 64 → increment_key_name k = (k + 1, false)) ∧
    (∀ c : Checksum256, c.d1 + 1 < 2 ^ 128 →
      increment_key_checksum c = (⟨c.d0, c.d1 + 1⟩, false) ∧
      ltCk c ⟨c.d0, c.d1 + 1⟩ = true) ∧
    (∀ c : Checksum256, c.d1 = 2 ^ 128 - 1 → c.d0 + 1 < 2 ^ 128 →
      increment_key_checksum c = (⟨c.d0 + 1, 0⟩, false) ∧
      ltCk c ⟨c.d0 + 1, 0⟩ = true) ∧
    (increment_key_checksum ⟨2 ^ 128 - 1, 2 ^ 128 - 1⟩ = (⟨0, 0⟩, true)) ∧
    (∀ k : ATKey, k.action_index + 1 < 2 ^ 32 →
      increment_key_at k = (⟨k.name, k.receipt_receiver, k.account, k.block_index,
        k.transaction_id, k.action_index + 1⟩, false)) ∧
    (∀ k : ATKey, k.action_index = 2 ^ 32 - 1 → k.transaction_id.d1 + 1 < 2 ^ 128 →
      increment_key_at k = (⟨k.name, k.receipt_receiver, k.account, k.block_index,
        ⟨k.transaction_id.d0, k.transaction_id.d1 + 1⟩, 0⟩, false)) ∧
    (∀ k : ATKey, wfATKey k → ((increment_key_at k).2 = true ↔ k = maxATKey)) ∧
    (∀ k : ATKey, wfATKey k → (increment_key_at k).2 = true →
      (inc_u 64 k.name).2 = true) ∧
    (∀ k : ATKey, wfATKey k → (increment_key_at k).2 = false →
      ltATKey k (increment_key_at k).1 = true) := by
  refine ⟨?_, inc_u_wrap, ?_, ?_, ?_, ?_, increment_key_at_case0, increment_key_at_case1,
    increment_key_at_wrap_iff, ?_, increment_key_at_lt⟩
  · intro w k h
    exact ⟨inc_u_of_lt w k h, by omega⟩
  · intro k h
    exact inc_u_of_lt 64 k h
  · intro c h
    refine ⟨increment_key_checksum_nowrap c h, ?_⟩
    simp [ltCk]
  · intro c h1 h0
    refine ⟨increment_key_checksum_carry c h1 h0, ?_⟩
    simp [ltCk]
  · exact increment_key_checksum_wrapped ⟨2 ^ 128 - 1, 2 ^ 128 - 1⟩ rfl rfl
  · intro k hwf h
    have hk := (increment_key_at_wrap_iff k hwf).mp h
    subst hk
    decide

theorem increment_key_spec_witness :
    ltATKey ⟨1, 2, 3, 4, ⟨5, 6⟩, 7⟩ (increment_key_at ⟨1, 2, 3, 4, ⟨5, 6⟩, 7⟩).1 = true :=
  increment_key_spec.2.2.2.2.2.2.2.2.2.2 ⟨1, 2, 3, 4, ⟨5, 6⟩, 7⟩ (by decide) (by decide)

/-- C6: a retry attempt whose freshly acquired snapshot reports head = 0
    fails the whole request with empty_database before running any guest; in
    particular when the first snapshot has head 0, query makes zero guest
    invocations and zero fork checks. -/
theorem empty_database_no_guest (envs : Nat → AttemptEnv) (request : List Nat) :
    (∀ k fuel g c, (envs k).fill.head = 0 →
      retry_go envs request k (fuel + 1) g c = ⟨.error .empty_database, k + 1, g, c⟩) ∧
    ((envs 0).fill.head = 0 →
      query envs request = ⟨.error .empty_database, 1, 0, 0⟩) := by
  refine ⟨fun k fuel g c h => retry_go_empty envs request k fuel g c h, fun h => ?_⟩
  have he := retry_go_empty envs request 0 3 0 0 h
  simpa [query] using he

theorem empty_database_no_guest_witness :
    query (fun _ => envEmpty) testReq = ⟨.error .empty_database, 1, 0, 0⟩ :=
  (empty_database_no_guest (fun _ => envEmpty) testReq).2 rfl

/-- C7: every variable-size host call (get_database_status, get_input_data,
    query_database) allocates through alloc, which invokes the guest table
    function cb_alloc with (cb_alloc_data, required_size); for each of the
    three calls, a missing or non-i32 return fails the call fatally with the
    bad-callback error, while an i32 offset makes the call write exactly the
    required-size payload at that offset and leave every other memory byte
    unchanged. -/
theorem callback_allocation_spec (execTable : Nat → Nat → Nat → Option WasmVal)
    (mem : Nat → Nat) (status request : List Nat) (qdb : List Nat → Nat → List Nat)
    (head d a rb re : Nat) :
    (execTable a d status.length = none →
      cb_get_database_status execTable mem status d a = .error .bad_callback_return) ∧
    (∀ v, execTable a d status.length = some v → (∀ off, v ≠ WasmVal.i32 off) →
      cb_get_database_status execTable mem status d a = .error .bad_callback_return) ∧
    (∀ off, execTable a d status.length = some (WasmVal.i32 off) →
      cb_get_database_status execTable mem status d a = .ok (writeBytes mem off status)) ∧
    (execTable a d request.length = none →
      cb_get_input_data execTable mem request d a = .error .bad_callback_return) ∧
    (∀ v, execTable a d request.length = some v → (∀ off, v ≠ WasmVal.i32 off) →
      cb_get_input_data execTable mem request d a = .error .bad_callback_return) ∧
    (∀ off, execTable a d request.length = some (WasmVal.i32 off) →
      cb_get_input_data execTable mem request d a = .ok (writeBytes mem off request)) ∧
    (execTable a d
        (qdb ((List.range (re - rb)).map fun i => mem (rb + i)) head).length = none →
      rb ≤ re →
      cb_query_database execTable mem qdb head rb re d a = .error .bad_callback_return) ∧
    (∀ v, execTable a d
        (qdb ((List.range (re - rb)).map fun i => mem (rb + i)) head).length = some v →
      (∀ off, v ≠ WasmVal.i32 off) → rb ≤ re →
      cb_query_database execTable mem qdb head rb re d a = .error .bad_callback_return) ∧
    (∀ off, execTable a d
        (qdb ((List.range (re - rb)).map fun i => mem (rb + i)) head).length =
          some (WasmVal.i32 off) → rb ≤ re →
      cb_query_database execTable mem qdb head rb re d a =
        .ok (writeBytes mem off (qdb ((List.range (re - rb)).map fun i => mem (rb + i)) head))) ∧
    (∀ payload off i, i < payload.length →
      writeBytes mem off payload (off + i) = payload.getD i 0) ∧
    (∀ payload off j, j < off ∨ off + payload.length ≤ j →
      writeBytes mem off payload j = mem j) := by
  refine ⟨?_, ?_, ?_, ?_, ?_, ?_, ?_, ?_, ?_, ?_, ?_⟩
  · intro h
    simp [cb_get_database_status, alloc, h]
  · intro v h hv
    rcases v with off | x | x | x
    · exact absurd rfl (hv off)
    · simp [cb_get_database_status, alloc, h]
    · simp [cb_get_database_status, alloc, h]
    · simp [cb_get_database_status, alloc, h]
  · intro off h
    simp [cb_get_database_status, alloc, h, check_bounds]
  · intro h
    simp [cb_get_input_data, alloc, h]
  · intro v h hv
    rcases v with off | x | x | x
    · exact absurd rfl (hv off)
    · simp [cb_get_input_data, alloc, h]
    · simp [cb_get_input_data, alloc, h]
    · simp [cb_get_input_data, alloc, h]
  · intro off h
    simp [cb_get_input_data, alloc, h, check_bounds]
  · intro h hle
    simp [cb_query_database, check_bounds, Nat.not_lt.mpr hle, alloc, h]
  · intro v h hv hle
    rcases v with off | x | x | x
    · exact absurd rfl (hv off)
    · simp [cb_query_database, check_bounds, Nat.not_lt.mpr hle, alloc, h]
    · simp [cb_query_database, check_bounds, Nat.not_lt.mpr hle, alloc, h]
    · simp [cb_query_database, check_bounds, Nat.not_lt.mpr hle, alloc, h]
  · intro off h hle
    simp [cb_query_database, check_bounds, Nat.not_lt.mpr hle, alloc, h]
  · intro payload off i hi
    simp only [writeBytes, if_pos (by omega : off ≤ off + i ∧ off + i < off + payload.length)]
    rw [Nat.add_sub_cancel_left]
  · intro payload off j hj
    simp only [writeBytes, if_neg (by omega : ¬ (off ≤ j ∧ j < off + payload.length))]

theorem callback_allocation_spec_witness :
    cb_get_database_status (fun _ _ _ => some (WasmVal.i32 3)) (fun _ => 0) [1, 2] 0 5 =
      .ok (writeBytes (fun _ => 0) 3 [1, 2]) :=
  (callback_allocation_spec (fun _ _ _ => some (WasmVal.i32 3)) (fun _ => 0) [1, 2] []
    (fun _ _ => []) 0 0 5 0 0).2.2.1 3 rfl

/-- C8: a committed reply for an encoded multi-sub-request is the varuint32
    count of sub-requests followed by, for each sub-request in order, the
    varuint32 length and then exactly the bytes the guest produced for that
    sub-request, all computed against the single committing attempt's
    snapshot. -/
theorem reply_wire_format (envs : Nat → AttemptEnv) (subs : List (Nat × List Nat))
    (r : List Nat) (a g c : Nat)
    (hsn : ∀ s ∈ subs, s.1 < 2 ^ 64)
    (hpl : ∀ s ∈ subs, 16 + s.2.length < 2 ^ 32)
    (hn : subs.length < 2 ^ 32)
    (hrep : ∀ j sn pl, ((envs j).guest sn pl).length < 2 ^ 32)
    (h : query envs (encodeRequest subs) = ⟨.ok r, a, g, c⟩) :
    ∃ k, k < 4 ∧ r = encodeReply (subs.map fun s => (envs k).guest s.1 s.2) := by
  obtain ⟨k, h0k, hk4, hh, hout, ha, hprev⟩ :=
    retry_go_ok envs (encodeRequest subs) 4 0 0 0 r a g c h
  refine ⟨k, by omega, ?_⟩
  rcases hres : runAttempt (envs k) (encodeRequest subs) with ⟨o, gg, cc⟩
  rw [hres] at hout
  simp only at hout
  subst hout
  exact runAttempt_encode (envs k) (hrep k) subs r gg cc hsn hpl hn hres

theorem reply_wire_format_witness :
    query (fun _ => envOk) (encodeRequest [(5, [1, 2])]) = ⟨.ok [1, 1, 9], 1, 1, 1⟩ ∧
    encodeReply [envOk.guest 5 [1, 2]] = [1, 1, 9] := by
  have h := reply_wire_format (fun _ => envOk) [(5, [1, 2])] [1, 1, 9] 1 1 1
    (by decide) (by decide) (by decide)
    (fun _ _ _ => by show (1 : Nat) < 2 ^ 32; norm_num) rfl
  exact ⟨rfl, rfl⟩

/-- C9: for_each_contract_row calls the callback once per decoded row in
    order, stopping with result false at the first row on which the callback
    returns false (the recorded call list is the rows up to and including
    that first failing row); the data argument passed for a row is none
    exactly when the row's present flag is false or its value blob is empty,
    and otherwise the unpacked value blob. -/
theorem for_each_contract_row_spec {T : Type} (unpackRow : List Nat → ContractRow)
    (unpackT : List Nat → T) (g : ContractRow → Option T → Bool)
    (blobs : List (List Nat)) (hn : blobs.length < 2 ^ 32)
    (hb : ∀ b ∈ blobs, b.length < 2 ^ 32) :
    for_each_contract_row unpackRow unpackT
      (fun s row arg => (g row arg, s ++ [(row, arg)])) (encodeReply blobs)
      ([] : List (ContractRow × Option T)) =
      some ((blobs.map unpackRow).all (fun row => g row (callArg unpackT row)),
        ((blobs.map unpackRow).takeWhile (fun row => g row (callArg unpackT row)) ++
          ((blobs.map unpackRow).dropWhile (fun row => g row (callArg unpackT row))).take 1).map
          fun row => (row, callArg unpackT row)) ∧
    (∀ row : ContractRow, callArg unpackT row = none ↔
      (row.present = false ∨ row.value = [])) := by
  constructor
  · have hstep : for_each_contract_row unpackRow unpackT
        (fun s row arg => (g row arg, s ++ [(row, arg)])) (encodeReply blobs)
        ([] : List (ContractRow × Option T)) =
        forEachGo unpackRow
          (fun s row => (g row (callArg unpackT row), s ++ [(row, callArg unpackT row)]))
          blobs.length (joinList (blobs.map fun b => encodeVaruint b.length ++ b)) [] := by
      unfold for_each_contract_row for_each_query_result
      rw [show decodeVaruint (encodeReply blobs) =
          some (blobs.length, joinList (blobs.map fun b => encodeVaruint b.length ++ b)) from by
        simp only [encodeReply]
        exact decodeVaruint_encode _ _ hn]
      show forEachGo unpackRow
          (fun s row =>
            if row.present && decide (row.value.length ≠ 0) then
              let p := unpackT row.value
              (fun s row arg => (g row arg, s ++ [(row, arg)])) s row (some p)
            else (fun s row arg => (g row arg, s ++ [(row, arg)])) s row none)
          blobs.length (joinList (blobs.map fun b => encodeVaruint b.length ++ b)) [] = _
      congr 1
      exact contract_row_wrapper_eq unpackT g
    rw [hstep, show joinList (blobs.map fun b => encodeVaruint b.length ++ b) =
        joinList (blobs.map fun b => encodeVaruint b.length ++ b) ++ [] from
      (List.append_nil _).symm]
    rw [forEachGo_record unpackRow unpackT g blobs [] [] hb]
    simp
  · intro row
    cases hpres : row.present
    · simp [callArg, hpres]
    · rcases hval : row.value with _ | ⟨x, xs⟩
      · simp [callArg, hpres, hval]
      · simp [callArg, hpres, hval]

theorem for_each_contract_row_spec_witness :
    for_each_contract_row (fun b => (⟨0, true, 0, 0, 0, 0, 0, b⟩ : ContractRow))
      (fun b => b.length) (fun s row arg => (true, s ++ [(row, arg)])) (encodeReply [[1]])
      ([] : List (ContractRow × Option Nat)) =
      some (true, [(⟨0, true, 0, 0, 0, 0, 0, [1]⟩, some 1)]) :=
  ((for_each_contract_row_spec (fun b => (⟨0, true, 0, 0, 0, 0, 0, b⟩ : ContractRow))
    (fun b => b.length) (fun _ _ => true) [[1]] (by decide) (by decide)).1).trans rfl

/-- C10 counterexample: the blob consisting of the single byte 0 encodes zero
    sub-requests, yet against a database whose snapshot reports head 0, query
    does not commit the varuint 0 reply on the first attempt — it fails with
    empty_database.  The claim as stated (commit for every such blob) is
    therefore false. -/
theorem zero_subrequest_counterexample :
    decodeVaruint [0] = some (0, []) ∧
    query (fun _ => envEmpty) [0] = ⟨.error .empty_database, 1, 0, 0⟩ :=
  ⟨rfl, rfl⟩

/-- C10 (amended): for a request blob whose outer varuint32 decodes to 0,
    provided the first snapshot's head is nonzero, query commits on the first
    attempt with the reply consisting solely of the varuint32 encoding of 0,
    invoking no guest and performing no fork check; and regardless of the
    database state such a request never fails with too_many_forks. -/
theorem zero_subrequest_commit (envs : Nat → AttemptEnv) (bs rest : List Nat)
    (hdec : decodeVaruint bs = some (0, rest)) :
    ((envs 0).fill.head ≠ 0 → query envs bs = ⟨.ok (encodeVaruint 0), 1, 0, 0⟩) ∧
    (query envs bs).result ≠ .error .too_many_forks := by
  have hrun : ∀ env : AttemptEnv, runAttempt env bs = ⟨.ok (some (encodeVaruint 0)), 0, 0⟩ := by
    intro env
    unfold runAttempt
    rw [hdec]
    rfl
  constructor
  · intro hh
    simp [query, retry_go, if_neg hh, hrun]
  · by_cases hh : (envs 0).fill.head = 0
    · have he := retry_go_empty envs bs 0 3 0 0 hh
      have he2 : query envs bs = ⟨.error .empty_database, 0 + 1, 0, 0⟩ := he
      rw [he2]
      simp
    · have : query envs bs = ⟨.ok (encodeVaruint 0), 1, 0, 0⟩ := by
        simp [query, retry_go, if_neg hh, hrun]
      rw [this]
      simp

theorem zero_subrequest_commit_witness :
    query (fun _ => envOk) [0] = ⟨.ok (encodeVaruint 0), 1, 0, 0⟩ :=
  (zero_subrequest_commit (fun _ => envOk) [0] [] rfl).1 (by decide)

end WasmQl
